import Mathlib

/-!
# MicroNetwork: the command-line entry point

Shallow embedding of `cmd/micronetwork/main.go`.

`main` registers one boolean flag (`-verbose`, default `false`), parses the
command line with the Go standard library (`flag.Parse`, exit-on-error mode),
builds an application object with `micronetwork.NewApp(*verbose)`, calls
`Run()` on it and hands a non-nil error to `log.Fatal`.

Go strings are byte strings.  The flag parser only compares bytes with the
ASCII characters `-` and `=` and whole names with ASCII literals, so it is
modelled over the characters of the argument (`String.data`): an ASCII byte
never occurs inside a multi-byte UTF-8 sequence, and an argument whose first
byte is `-` has at least two bytes exactly when it has at least two characters.
-/

namespace MicroNetwork

/-! ## Package `strconv` / `flag` of the Go standard library, as used by `main` -/

/-- Go `strconv.ParseBool`: the accepted spellings of a boolean; `none` is the
syntax error. -/
def ParseBool (s : List Char) : Option Bool :=
  if s = "1".data ∨ s = "t".data ∨ s = "T".data ∨ s = "TRUE".data ∨ s = "true".data
      ∨ s = "True".data then some true
  else if s = "0".data ∨ s = "f".data ∨ s = "F".data ∨ s = "FALSE".data ∨ s = "false".data
      ∨ s = "False".data then some false
  else none

/-- The errors `FlagSet.parseOne` can produce for a flag set whose only formal
flag is the boolean `verbose`. -/
inductive FlagError where
  /-- the error `bad flag syntax: %s` -/
  | badFlag (arg : List Char)
  /-- the error `flag provided but not defined: -%s` -/
  | notDefined (name : List Char)
  /-- the error `ErrHelp`: `-h` or `-help` was given and is not a defined flag -/
  | help
  /-- the error `invalid boolean value %q for -%s` -/
  | invalidBool (value : List Char) (name : List Char)
  deriving DecidableEq, Repr

/-- The syntactic shape `parseOne` gives to the first remaining argument. -/
inductive ArgShape where
  /-- shorter than two bytes, or not starting with `-`: parsing stops, the
  argument stays in the remaining arguments -/
  | nonFlag
  /-- exactly `--`: parsing stops, the argument is consumed -/
  | terminator
  /-- nothing, a `-` or a `=` right after the one or two leading minus signs -/
  | badFlag
  /-- a flag with its name and, when the argument holds a `=`, its value -/
  | flag (name : List Char) (value : Option (List Char))
  deriving DecidableEq, Repr

/-- The loop of `parseOne` that looks for `=` from index 1 of the name on:
`name[0:i]` and `name[i+1:]` for the first such index `i`. -/
def splitValue (c : Char) (cs : List Char) : List Char × Option (List Char) :=
  match cs.span (fun x => x != '=') with
  | (before, _ :: after) => (c :: before, some after)
  | (_, []) => (c :: cs, none)

/-- The first half of `FlagSet.parseOne`: the classification of `args[0]`. -/
def argShape (s : List Char) : ArgShape :=
  match s with
  | [] => .nonFlag
  | [_] => .nonFlag
  | c0 :: c1 :: tl =>
    if c0 != '-' then .nonFlag
    else
      -- numMinuses is 2 when s[1] is a minus sign, else 1
      let name := if c1 = '-' then tl else c1 :: tl
      if c1 = '-' ∧ tl = [] then .terminator
      else
        match name with
        | [] => .badFlag
        | n0 :: ntl =>
          if n0 = '-' ∨ n0 = '=' then .badFlag
          else
            let nv := splitValue n0 ntl
            .flag nv.1 nv.2

/-- What one call of `FlagSet.parseOne` reports. -/
inductive ParseOne where
  /-- the result `(false, nil)`: no flag seen; `consumed` tells whether `args[0]` was
  dropped from the remaining arguments (the `--` terminator) -/
  | stop (consumed : Bool)
  /-- the result `(false, err)` -/
  | fail (err : FlagError)
  /-- the result `(true, nil)`: a flag was seen and the value behind `verbose` is now `v` -/
  | seen (v : Bool)
  deriving DecidableEq, Repr

/-- The method `FlagSet.parseOne` on a non-empty argument list whose head is `s`, for the
flag set of `main`: the only formal flag is `verbose`, a boolean flag, which
never takes the next argument as its value. -/
def parseOne (s : List Char) : ParseOne :=
  match argShape s with
  | .nonFlag => .stop false
  | .terminator => .stop true
  | .badFlag => .fail (.badFlag s)
  | .flag name value =>
    if name = "verbose".data then
      match value with
      | some v =>
        match ParseBool v with
        | some b => .seen b
        | none => .fail (.invalidBool v name)
      | none => .seen true
    else if name = "help".data ∨ name = "h".data then .fail .help
    else .fail (.notDefined name)

/-- The method `FlagSet.Parse` without the error handling: the loop over `parseOne`.
`verbose` is the current value of the flag; the result is its final value
together with the remaining (non-flag) arguments, or the first error. -/
def parseLoop (verbose : Bool) : List String → Except FlagError (Bool × List String)
  | [] => .ok (verbose, [])
  | s :: rest =>
    match parseOne s.data with
    | .stop consumed => .ok (verbose, if consumed then rest else s :: rest)
    | .fail e => .error e
    | .seen v => parseLoop v rest

/-- The exit status `flag.Parse` ends the process with on an error: the command
line flag set is created with `ExitOnError`, which exits with 0 on `ErrHelp`
and with 2 on every other error. -/
def flagExitCode : FlagError → Nat
  | .help => 0
  | _ => 2

/-! ## The application object, an external collaborator of `main` -/

/-- What a call of `(*App).Run()` does, as seen by its caller: it returns an
error value (`none` is the nil error), or control never comes back to the
caller (the run loops for ever, or ends the process itself). -/
inductive RunResult (ε : Type) where
  | returned (err : Option ε)
  | noReturn
  deriving DecidableEq, Repr

/-- The two operations of package `micronetwork` that `main` uses, taken as
parameters: `NewApp(verbose bool) *App` and `(*App).Run() error`, together
with the `Error() string` method of the error value. -/
structure Core (App ε : Type) where
  NewApp : Bool → App
  Run : App → RunResult ε
  Error : ε → String

/-- The operations on the application object that a caller can invoke. -/
inductive Call (App : Type) where
  | NewApp (verbose : Bool)
  | Run (app : App)
  | Cancel (app : App)
  deriving DecidableEq, Repr

/-- What an execution of the process does, as far as `main` decides it. -/
structure Outcome (App ε : Type) where
  /-- calls made into package `micronetwork`, in order -/
  calls : List (Call App)
  /-- what the call of `Run` did, when `Run` was called -/
  runResult : Option (RunResult ε)
  /-- the value handed to `log.Fatal`, if it was called -/
  fatal : Option ε
  /-- the text `log.Fatal` formats from its argument (`fmt.Sprint(err)`, which
  is `err.Error()` for an error value) -/
  fatalMessage : Option String
  /-- the exit status of the process; `none` when `main` never gets to end it
  (`Run` did not return) -/
  exitCode : Option Nat
  deriving DecidableEq, Repr

/-- The function `main` of `cmd/micronetwork/main.go` applied to the command
line arguments (`os.Args[1:]`). -/
def main {App ε : Type} (core : Core App ε) (args : List String) : Outcome App ε :=
  -- verbose := flag.Bool("verbose", false, ...); flag.Parse()
  match parseLoop false args with
  | .error e =>
    -- flag.Parse ends the process; nothing after it runs
    { calls := [], runResult := none, fatal := none, fatalMessage := none,
      exitCode := some (flagExitCode e) }
  | .ok (verbose, _) =>
    -- app := micronetwork.NewApp(*verbose)
    let app := core.NewApp verbose
    -- if err := app.Run(); err != nil { log.Fatal(err) }
    match core.Run app with
    | .returned (some err) =>
      -- log.Fatal prints its argument and calls os.Exit(1)
      { calls := [.NewApp verbose, .Run app], runResult := some (.returned (some err)),
        fatal := some err, fatalMessage := some (core.Error err), exitCode := some 1 }
    | .returned none =>
      { calls := [.NewApp verbose, .Run app], runResult := some (.returned none),
        fatal := none, fatalMessage := none, exitCode := some 0 }
    | .noReturn =>
      { calls := [.NewApp verbose, .Run app], runResult := some .noReturn,
        fatal := none, fatalMessage := none, exitCode := none }

/-! ## Readings of the command line used to state the properties of `main` -/

/-- The boolean an argument gives to `-verbose` when `parseOne` accepts it as a
flag: `-verbose`, `--verbose`, `-verbose=b`, `--verbose=b` with `b` a boolean
spelling. -/
def verboseSetting (s : String) : Option Bool :=
  match parseOne s.data with
  | .seen b => some b
  | _ => none

/-- The argument has the shape of a flag named `verbose`, whatever its value. -/
def mentionsVerbose (s : String) : Bool :=
  match argShape s.data with
  | .flag name _ => name = "verbose".data
  | _ => false

/-- The argument has the shape of a flag. -/
def isFlag (s : String) : Bool :=
  match argShape s.data with
  | .flag _ _ => true
  | _ => false

/-- The argument is a flag that the command line does not accept: its name is
not `verbose`, or it is `verbose` with a value that is not a boolean. -/
def rejectedFlag (s : String) : Bool :=
  match argShape s.data with
  | .flag name value =>
    name != "verbose".data ||
      (match value with
       | some v => (ParseBool v).isNone
       | none => false)
  | _ => false

/-- The argument is the undefined flag `-h` or `-help` (with or without a
value), which `flag` answers with the usage text. -/
def asksHelp (s : String) : Bool :=
  match argShape s.data with
  | .flag name _ => name = "help".data || name = "h".data
  | _ => false

/-- The value of the `-verbose` flag after parsing, read off the command line
without running the parser: flags are the arguments before the first argument
that is not of flag shape; the last of them that sets `verbose` decides, and
the default is `false`. -/
def flagValue (args : List String) : Bool :=
  (((args.takeWhile isFlag).filterMap verboseSetting).getLast?).getD false

/-- Two command lines that differ only in the value of `-verbose`: one is got
from the other by changing, adding or removing arguments that set `-verbose`
to a boolean. -/
inductive DiffersOnlyInVerbose : List String → List String → Prop where
  | nil : DiffersOnlyInVerbose [] []
  | same (s : String) {a b : List String} :
      DiffersOnlyInVerbose a b → DiffersOnlyInVerbose (s :: a) (s :: b)
  | left (s : String) {a b : List String} :
      (verboseSetting s).isSome → DiffersOnlyInVerbose a b → DiffersOnlyInVerbose (s :: a) b
  | right (s : String) {a b : List String} :
      (verboseSetting s).isSome → DiffersOnlyInVerbose a b → DiffersOnlyInVerbose a (s :: b)

/-- A collaborator for examples: the application object is the verbosity it
was built with, and `Run` does the same thing for every application. -/
def constCore {ε : Type} (r : RunResult ε) (msg : ε → String) : Core Bool ε :=
  { NewApp := fun v => v, Run := fun _ => r, Error := msg }

/-- A collaborator for examples whose run depends on the application it is
called on: the application is the verbosity it was built with, and `Run`
returns the error `loud` on a verbose application and the error `quiet` on a
quiet one. -/
def verbosityCore : Core Bool String :=
  { NewApp := fun v => v
    Run := fun app => if app then .returned (some "loud") else .returned (some "quiet")
    Error := fun m => m }

/-! ## Package `micronetwork`, modelled from the specification

The package behind `NewApp` and `Run` is not part of the visible source.  The
definitions of this section follow the specification of the simulator core:
time is a natural number of ticks, and the seeded random source is passed
explicitly, so that every operation is a function of its inputs. -/

/-- Modelled from the spec: node identity (§3 Node), absent from the source. -/
abbrev NodeID := String

/-- Modelled from the spec: simulated time (§3 Simulation Clock), absent from
the source; a logical clock value, here a number of ticks. -/
abbrev Time := Nat

/-- Modelled from the spec: a packet (§3 Packet), absent from the source:
opaque payload, source and destination, logical send time, and a sequence
number that is monotonic per source node. -/
structure Packet where
  payload : String
  src : NodeID
  dst : NodeID
  sendTime : Time
  seq : Nat
  deriving DecidableEq, Repr

/-- Modelled from the spec: the latency configuration of a link (§4.2), absent
from the source: `{Fixed(d), UniformRange(lo,hi), Exponential(mean)}`. -/
inductive LatencyDist where
  | Fixed (d : Time)
  | UniformRange (lo hi : Time)
  | Exponential (mean : Time)
  deriving DecidableEq, Repr

/-- Modelled from the spec: a directed link (§3 Link), absent from the source:
ordered pair of node ids, latency distribution, loss probability, optional
bandwidth limit and the partition flag. -/
structure Link where
  src : NodeID
  dst : NodeID
  latency : LatencyDist
  lossProbability : ℚ
  bandwidth : Option Nat
  partitioned : Bool
  deriving DecidableEq

/-- Modelled from the spec: an event of the scheduler (§3 Event), absent from
the source: a delivery `(time, packet, target)` or a timer
`(time, target, timer id)`. -/
inductive Event where
  | delivery (time : Time) (packet : Packet) (target : NodeID)
  | timer (time : Time) (target : NodeID) (timerID : Nat)
  deriving DecidableEq, Repr

/-- Modelled from the spec: the time of an event (§3 Event). -/
def Event.time : Event → Time
  | .delivery t _ _ => t
  | .timer t _ _ => t

/-- Modelled from the spec: the node an event is dispatched to (§3 Event). -/
def Event.target : Event → NodeID
  | .delivery _ _ n => n
  | .timer _ n _ => n

/-- Modelled from the spec: the internal invariant violations of §7 and §4.2,
absent from the source; they abort the run instead of being corrected. -/
inductive Violation where
  /-- an event scheduled at a time before the current clock (§7) -/
  | pastEvent
  /-- a delivery that would not be strictly later than `now` (§4.2) -/
  | zeroLatency
  deriving DecidableEq, Repr

/-! ### Topology Registry (§4.1) -/

/-- Modelled from the spec: the configuration errors of §4.1 and §7, absent
from the source. -/
inductive ConfigError where
  | DuplicateNode (id : NodeID)
  | UnknownNode (id : NodeID)
  | DuplicateLink (src dst : NodeID)
  | UnknownLink (src dst : NodeID)
  deriving DecidableEq, Repr

/-- Modelled from the spec: the Topology Registry (§4.1), absent from the
source: the set of nodes and the set of directed links between them. -/
structure Registry where
  nodes : List NodeID
  links : List Link

/-- Modelled from the spec: the read-only lookup `Node(id)` of §4.1. -/
def Registry.hasNode (r : Registry) (id : NodeID) : Bool :=
  r.nodes.contains id

/-- Modelled from the spec: the read-only lookup `Link(src,dst)` of §4.1. -/
def Registry.findLink (r : Registry) (src dst : NodeID) : Option Link :=
  r.links.find? (fun l => l.src = src ∧ l.dst = dst)

/-- Modelled from the spec: `AddNode(id)` of §4.1, which fails with
`DuplicateNode` if the id exists. -/
def AddNode (r : Registry) (id : NodeID) : Except ConfigError Registry :=
  if r.hasNode id then .error (.DuplicateNode id)
  else .ok { r with nodes := r.nodes ++ [id] }

/-- Modelled from the spec: `AddLink(src, dst, params)` of §4.1, which fails
with `UnknownNode` if either endpoint is absent and with `DuplicateLink` if the
ordered pair already exists. -/
def AddLink (r : Registry) (l : Link) : Except ConfigError Registry :=
  if !r.hasNode l.src then .error (.UnknownNode l.src)
  else if !r.hasNode l.dst then .error (.UnknownNode l.dst)
  else if (r.findLink l.src l.dst).isSome then .error (.DuplicateLink l.src l.dst)
  else .ok { r with links := r.links ++ [l] }

/-- Modelled from the spec: `SetPartition(src, dst, bool)` of §4.1, which
toggles the partition flag of an existing link and fails with `UnknownLink`
otherwise. -/
def SetPartition (r : Registry) (src dst : NodeID) (b : Bool) : Except ConfigError Registry :=
  if (r.findLink src dst).isSome then
    .ok { r with links := r.links.map (fun l =>
            if l.src = src ∧ l.dst = dst then { l with partitioned := b } else l) }
  else .error (.UnknownLink src dst)

/-! ### Link Model (§4.2) -/

/-- Modelled from the spec: the seeded random source of §4.2 and §9, absent
from the source; it is injected through configuration.  `ρ` is the state of the
generator; every draw returns the value and the next state.  `chance` is a
uniform draw from `[0,1)`. -/
structure Generator (ρ : Type) where
  uniformRange : Time → Time → ρ → Time × ρ
  exponential : Time → ρ → Time × ρ
  chance : ρ → ℚ × ρ

/-- Modelled from the spec: "draw/compute a latency value from the link's
configured distribution" (§4.2): a fixed latency is computed, the other two
are drawn. -/
def drawLatency {ρ : Type} (g : Generator ρ) : LatencyDist → ρ → Time × ρ
  | .Fixed d, r => (d, r)
  | .UniformRange lo hi, r => g.uniformRange lo hi r
  | .Exponential mean, r => g.exponential mean r

/-- Modelled from the spec: the result `(deliverAt, drop bool)` of `Resolve`
(§4.2). -/
structure Resolution where
  deliverAt : Time
  drop : Bool
  deriving DecidableEq, Repr

/-- Modelled from the spec: `Resolve(link, packet, now)` of the Link Model
(§4.2), absent from the source.  A partitioned link always drops.  Else a
latency is drawn, then a drop decision from `lossProbability`; a packet that is
not dropped is delivered at `now + latency`, which must be strictly greater
than `now`: zero latency is disallowed, so it is reported as a violation rather
than corrected (§7).  A dropped packet has no delivery time; the field then
holds 0. -/
def Resolve {ρ : Type} (g : Generator ρ) (link : Link) (_packet : Packet) (now : Time) (r : ρ) :
    Except Violation (Resolution × ρ) :=
  if link.partitioned then .ok ({ deliverAt := 0, drop := true }, r)
  else
    let lat := drawLatency g link.latency r
    let u := g.chance lat.2
    if u.1 < link.lossProbability then .ok ({ deliverAt := 0, drop := true }, u.2)
    else if lat.1 = 0 then .error .zeroLatency
    else .ok ({ deliverAt := now + lat.1, drop := false }, u.2)

/-! ### Scheduler (§4.3) -/

/-- Modelled from the spec: an entry of the scheduler queue (§4.3), absent from
the source: an event with its key `(time, insertion sequence)`. -/
structure Entry where
  time : Time
  seq : Nat
  event : Event
  deriving DecidableEq, Repr

/-- Modelled from the spec: the order of the queue (§4.3): by time, then by
insertion sequence. -/
def Entry.before (a b : Entry) : Bool :=
  decide (a.time < b.time) || (decide (a.time = b.time) && decide (a.seq < b.seq))

/-- Modelled from the spec: insertion into the min-priority queue (§4.3), kept
as a list in the order of the queue. -/
def enqueue (e : Entry) : List Entry → List Entry
  | [] => [e]
  | h :: t => if e.before h then e :: h :: t else h :: enqueue e t

/-- Modelled from the spec: the Scheduler (§4.3), absent from the source: the
queue, the next insertion sequence number and the time of the last dispatched
event (0 before any dispatch). -/
structure Scheduler where
  queue : List Entry
  nextSeq : Nat
  now : Time
  deriving DecidableEq, Repr

/-- Modelled from the spec: the scheduler before anything is scheduled. -/
def Scheduler.empty : Scheduler := { queue := [], nextSeq := 0, now := 0 }

/-- Modelled from the spec: `Schedule(event)` of §4.3.  Scheduling an event at
a time before the current clock is an invariant violation (§7). -/
def Schedule (s : Scheduler) (ev : Event) : Except Violation Scheduler :=
  if ev.time < s.now then .error .pastEvent
  else .ok { s with
    queue := enqueue { time := ev.time, seq := s.nextSeq, event := ev } s.queue
    nextSeq := s.nextSeq + 1 }

/-- Modelled from the spec: `Next() -> (event, ok)` of §4.3: pops the earliest
event, whose time becomes the clock, or reports `none` when the queue is
empty. -/
def Next (s : Scheduler) : Option Event × Scheduler :=
  match s.queue with
  | [] => (none, s)
  | e :: rest => (some e.event, { s with queue := rest, now := e.time })

/-- Modelled from the spec: `Now() -> time` of §4.3. -/
def Now (s : Scheduler) : Time := s.now

/-- An operation on the scheduler. -/
inductive SchedOp where
  | schedule (ev : Event)
  | next
  deriving DecidableEq, Repr

/-- A history of the scheduler: the events inserted and the events dispatched
so far, both in order, with the scheduler they led to. -/
structure History where
  sched : Scheduler
  inserted : List Event
  dispatched : List Event
  deriving DecidableEq, Repr

/-- One operation applied to a history.  A `Next` on an empty queue reports
`ok = false` and changes nothing. -/
def History.apply (h : History) : SchedOp → Except Violation History
  | .schedule ev =>
    match Schedule h.sched ev with
    | .ok s => .ok { h with sched := s, inserted := h.inserted ++ [ev] }
    | .error v => .error v
  | .next =>
    match Next h.sched with
    | (some ev, s) => .ok { h with sched := s, dispatched := h.dispatched ++ [ev] }
    | (none, s) => .ok { h with sched := s }

/-- A sequence of operations applied to a history, up to the first violation. -/
def History.run (h : History) : List SchedOp → Except Violation History
  | [] => .ok h
  | op :: ops =>
    match h.apply op with
    | .ok h1 => h1.run ops
    | .error v => .error v

/-- The history of a new scheduler. -/
def History.start : History := { sched := Scheduler.empty, inserted := [], dispatched := [] }

/-- The operations that schedule the given events, in order, and then call
`Next` the given number of times. -/
def scheduleThenDrain (evs : List Event) (n : Nat) : List SchedOp :=
  evs.map SchedOp.schedule ++ List.replicate n SchedOp.next

/-! ### Node Runtime (§4.4) and Orchestrator (§4.5) -/

/-- Modelled from the spec: a node-level fault (§4.4, §7), absent from the
source: the error of one handler invocation, confined to its node. -/
structure NodeFault where
  node : NodeID
  time : Time
  message : String
  deriving DecidableEq, Repr

/-- Modelled from the spec: the error taxonomy of §7, absent from the source:
what `Run` can return as a non-nil error.  `ConfigError` fails the run before
the simulation starts, `NodeFaults` is the aggregated summary of the node-level
faults, `CancellationError` is the distinct result of a cancelled run. -/
inductive RunError where
  | ConfigError (e : ConfigError)
  | NodeFaults (faults : List NodeFault)
  | CancellationError
  deriving DecidableEq, Repr

/-- Modelled from the spec: the text of an error of §7 (the `Error()` method of
the value `Run` returns); the spec fixes no wording. -/
def RunError.Error : RunError → String
  | .ConfigError _ => "config error"
  | .NodeFaults fs => "node faults: " ++ ", ".intercalate (fs.map (fun f => f.node))
  | .CancellationError => "cancelled"

/-- Modelled from the spec: a node (§3 Node, §4.4), absent from the source:
identity, attached handler with the capability
`Handle(packet, simTime) -> (outgoing, error)`, and local state owned by the
node.  The spec names no capability for timer events; `Timer` is given the
same shape. -/
structure Node (σ : Type) where
  id : NodeID
  state : σ
  Handle : σ → Packet → Time → σ × List Packet × Option String
  Timer : σ → Nat → Time → σ × List Packet × Option String

/-- Modelled from the spec: the configuration "supplied programmatically" to
the Orchestrator (§6), absent from the source, with the two signals that reach
a run from outside: the optional maximum simulated time (§4.3) and the number
of dispatches after which a cancellation request is seen (§5). -/
structure Config (σ ρ : Type) where
  nodes : List (Node σ)
  links : List Link
  initial : List Event
  generator : Generator ρ
  seed : ρ
  maxTime : Option Time
  cancelAfter : Option Nat

/-- Modelled from the spec: the state one run owns (§5, §9): registry, queue
and clock, node runtimes, generator state, and the faults met so far. -/
structure Sim (σ ρ : Type) where
  registry : Registry
  scheduler : Scheduler
  nodes : List (Node σ)
  rng : ρ
  faults : List NodeFault
  dispatches : Nat

/-- Modelled from the spec: a line of the log; `verboseOnly` lines are written
only when the `-verbose` flag is set (§6). -/
structure LogLine where
  verboseOnly : Bool
  text : String
  deriving DecidableEq, Repr

/-- Modelled from the spec: the lines that reach the log at a given
verbosity (§6). -/
def emit (verbose : Bool) (lines : List LogLine) : List String :=
  (lines.filter (fun l => verbose || !l.verboseOnly)).map (fun l => l.text)

/-- Modelled from the spec: why the dispatch loop of §4.3 stops. -/
inductive Stop where
  /-- the queue drained: normal termination -/
  | drained
  /-- the maximum simulated time is exceeded: a normal stop -/
  | timeBound
  /-- a cancellation request was seen between two dispatches -/
  | cancelled
  /-- an internal invariant was violated: the run aborts -/
  | aborted (v : Violation)
  deriving DecidableEq, Repr

/-- Modelled from the spec: "builds the Topology Registry from configuration"
(§4.5): every node, then every link; the first `ConfigError` fails the run. -/
def buildRegistry {σ ρ : Type} (cfg : Config σ ρ) : Except ConfigError Registry :=
  match cfg.nodes.foldlM (fun r n => AddNode r n.id) { nodes := [], links := [] } with
  | .error e => .error e
  | .ok r => cfg.links.foldlM AddLink r

/-- Modelled from the spec: "seeds the Scheduler with any initial
timers/packets" (§4.5). -/
def seedScheduler (evs : List Event) : Except Violation Scheduler :=
  evs.foldlM Schedule Scheduler.empty

/-- Modelled from the spec: "route each [emitted packet] through the Link
Model, and schedule resulting events" (§4.3).  A packet for which the registry
has no link cannot be delivered and is dropped. -/
def route {ρ : Type} (g : Generator ρ) (reg : Registry) (now : Time) :
    List Packet → Scheduler → ρ → Except Violation (Scheduler × ρ)
  | [], s, r => .ok (s, r)
  | p :: ps, s, r =>
    match reg.findLink p.src p.dst with
    | none => route g reg now ps s r
    | some link =>
      match Resolve g link p now r with
      | .error v => .error v
      | .ok (res, r1) =>
        if res.drop then route g reg now ps s r1
        else
          match Schedule s (.delivery res.deliverAt p p.dst) with
          | .error v => .error v
          | .ok s1 => route g reg now ps s1 r1

/-- Modelled from the spec: the invocation of the target node's handler for an
event at the current time (§4.4). -/
def invoke {σ : Type} (n : Node σ) (ev : Event) (now : Time) : σ × List Packet × Option String :=
  match ev with
  | .delivery _ p _ => n.Handle n.state p now
  | .timer _ _ tid => n.Timer n.state tid now

/-- Modelled from the spec: one turn of the main loop of §4.3: stop if the run
is cancelled or the queue is empty or the time bound is exceeded; else pop the
earliest event, advance the clock, dispatch to the target node, and route the
packets it emits.  A handler error is recorded as a fault of that node and does
not stop the loop (§4.4).  The lines to log are returned with the new state. -/
def step {σ ρ : Type} (cfg : Config σ ρ) (sim : Sim σ ρ) :
    Except Stop (Sim σ ρ × List LogLine) :=
  if cfg.cancelAfter.any (fun n => decide (n ≤ sim.dispatches)) then .error .cancelled
  else
    match Next sim.scheduler with
    | (none, _) => .error .drained
    | (some ev, sched) =>
      if cfg.maxTime.any (fun m => decide (m < ev.time)) then .error .timeBound
      else
        let now := Now sched
        let line : LogLine := { verboseOnly := true, text := "dispatch to " ++ ev.target }
        match sim.nodes.find? (fun n => n.id = ev.target) with
        | none =>
          .ok ({ sim with scheduler := sched, dispatches := sim.dispatches + 1 }, [line])
        | some n =>
          match invoke n ev now with
          | (st, _, some msg) =>
            .ok ({ sim with
                    scheduler := sched
                    nodes := sim.nodes.map (fun m => if m.id = n.id then { m with state := st } else m)
                    faults := sim.faults ++ [{ node := n.id, time := now, message := msg }]
                    dispatches := sim.dispatches + 1 },
                 [line, { verboseOnly := false, text := "fault in " ++ n.id ++ ": " ++ msg }])
          | (st, out, none) =>
            match route cfg.generator sim.registry now out sched sim.rng with
            | .error v => .error (.aborted v)
            | .ok (sched1, rng1) =>
              .ok ({ sim with
                      scheduler := sched1
                      nodes := sim.nodes.map (fun m => if m.id = n.id then { m with state := st } else m)
                      rng := rng1
                      dispatches := sim.dispatches + 1 },
                   [line])

/-- Modelled from the spec: the dispatch loop of §4.3, run for at most `fuel`
turns; `none` when it is still running after that many.  The verbosity only
selects the lines that are logged. -/
def loop {σ ρ : Type} (verbose : Bool) (cfg : Config σ ρ) :
    Nat → Sim σ ρ → List String → Option (Stop × Sim σ ρ × List String)
  | 0, _, _ => none
  | fuel + 1, sim, log =>
    match step cfg sim with
    | .error stop => some (stop, sim, log)
    | .ok (sim1, lines) => loop verbose cfg fuel sim1 (log ++ emit verbose lines)

/-- Modelled from the spec: the Orchestrator, "the App" (§2, §4.5), absent from
the source: the verbosity given to `NewApp` and the configuration. -/
structure App (σ ρ : Type) where
  verbose : Bool
  config : Config σ ρ

/-- Modelled from the spec: the constructor `NewApp(verbose bool)` (§9), with
the configuration the package supplies. -/
def NewApp {σ ρ : Type} (cfg : Config σ ρ) (verbose : Bool) : App σ ρ :=
  { verbose := verbose, config := cfg }

/-- Modelled from the spec: `Run() error` of the Orchestrator (§4.5), with the
log it writes.  It builds the registry, seeds the scheduler, runs the dispatch
loop and surfaces a normal completion (nil), a cancellation result or the
aggregated node faults.  `fuel` bounds the number of turns looked at: a run
that is still going after `fuel` turns, or that aborts on an invariant
violation, does not return to its caller. -/
def Run {σ ρ : Type} (fuel : Nat) (app : App σ ρ) : RunResult RunError × List String :=
  match buildRegistry app.config with
  | .error e => (.returned (some (.ConfigError e)), ["config error"])
  | .ok reg =>
    match seedScheduler app.config.initial with
    | .error _ => (.noReturn, [])
    | .ok sched =>
      let sim : Sim σ ρ :=
        { registry := reg, scheduler := sched, nodes := app.config.nodes,
          rng := app.config.seed, faults := [], dispatches := 0 }
      match loop app.verbose app.config fuel sim [] with
      | none => (.noReturn, [])
      | some (.aborted _, _, log) => (.noReturn, log)
      | some (.cancelled, _, log) => (.returned (some .CancellationError), log)
      | some (_, sim1, log) =>
        if sim1.faults.isEmpty then (.returned none, log)
        else (.returned (some (.NodeFaults sim1.faults)), log)

/-- The collaborator of `main` given by the modelled package, for a
configuration and a bound on the turns of the dispatch loop. -/
def specCore {σ ρ : Type} (cfg : Config σ ρ) (fuel : Nat) : Core (App σ ρ) RunError :=
  { NewApp := NewApp cfg, Run := fun app => (Run fuel app).1, Error := RunError.Error }

/-- The events of a list that carry the time `t`, in the order of the list. -/
def atTime (t : Time) (evs : List Event) : List Event :=
  evs.filter (fun e => decide (e.time = t))

/-- The invariant of a scheduler history: the queue is in the order
`(time, insertion sequence)` with sequence numbers below the next one and
times not before the clock; the dispatched events are not after the clock and
are in order of time; and at every time the dispatched events followed by the
queued ones are the inserted ones, in the order of insertion. -/
structure History.Inv (h : History) : Prop where
  sorted : h.sched.queue.Pairwise (fun a b => a.before b = true)
  fresh : ∀ e ∈ h.sched.queue, e.seq < h.sched.nextSeq
  future : ∀ e ∈ h.sched.queue, h.sched.now ≤ e.time
  keyed : ∀ e ∈ h.sched.queue, e.time = e.event.time
  past : ∀ d ∈ h.dispatched, d.time ≤ h.sched.now
  ordered : h.dispatched.Pairwise (fun a b => a.time ≤ b.time)
  fifo : ∀ t, atTime t h.dispatched ++ atTime t (h.sched.queue.map Entry.event)
    = atTime t h.inserted
  all : (h.dispatched ++ h.sched.queue.map Entry.event).Perm h.inserted

/-! ## Examples used to instantiate the properties -/

/-- A generator for examples: its state counts the draws; it draws the low end
of a range, the mean of an exponential, and one half as chance. -/
def sampleGenerator : Generator Nat :=
  { uniformRange := fun lo _ r => (lo, r + 1)
    exponential := fun mean r => (mean, r + 1)
    chance := fun r => (1 / 2, r + 1) }

/-- A packet from `A` to `B` for examples. -/
def samplePacket : Packet :=
  { payload := "P", src := "A", dst := "B", sendTime := 0, seq := 0 }

/-- A link from `A` to `B` with fixed latency 10 and no loss, for examples. -/
def sampleLink (partitioned : Bool) : Link :=
  { src := "A", dst := "B", latency := .Fixed 10, lossProbability := 0, bandwidth := none,
    partitioned := partitioned }

/-- The end-to-end scenario of §8 for examples: nodes `A` and `B`, the sample
link, and a timer at time 0 on which `A` sends the sample packet; `B` records
the times at which it receives. -/
def sampleConfig : Config (List Time) Nat :=
  { nodes :=
      [{ id := "A", state := [], Handle := fun st _ _ => (st, [], none),
         Timer := fun st _ _ => (st, [samplePacket], none) },
       { id := "B", state := [], Handle := fun st _ t => (st ++ [t], [], none),
         Timer := fun st _ _ => (st, [], none) }]
    links := [sampleLink false]
    initial := [.timer 0 "A" 1]
    generator := sampleGenerator
    seed := 0
    maxTime := none
    cancelAfter := none }

/-- Scheduler operations for examples: insertions and dispatches interleaved. -/
def sampleOps : List SchedOp :=
  [.schedule (.timer 5 "a" 0), .schedule (.timer 3 "b" 1), .next,
   .schedule (.timer 3 "c" 2), .schedule (.timer 5 "d" 3), .next, .next]

/-- The history the sample operations lead to. -/
def sampleHistory : History :=
  { sched := { queue := [{ time := 5, seq := 3, event := .timer 5 "d" 3 }], nextSeq := 4, now := 5 }
    inserted := [.timer 5 "a" 0, .timer 3 "b" 1, .timer 3 "c" 2, .timer 5 "d" 3]
    dispatched := [.timer 3 "b" 1, .timer 3 "c" 2, .timer 5 "a" 0] }

/-- Events for examples, with two pairs of equal times. -/
def sampleEvents : List Event :=
  [.timer 5 "a" 0, .timer 3 "b" 1, .timer 5 "c" 2, .timer 3 "d" 3]

/-! ## Properties of the flag parser -/

theorem parseLoop_nil (v : Bool) : parseLoop v [] = .ok (v, []) := rfl

theorem parseLoop_cons (v : Bool) (s : String) (rest : List String) :
    parseLoop v (s :: rest) =
      match parseOne s.data with
      | .stop consumed => .ok (v, if consumed then rest else s :: rest)
      | .fail e => .error e
      | .seen b => parseLoop b rest := rfl

/-- An argument that `parseOne` accepts is a flag named `verbose`. -/
theorem parseOne_seen {d : List Char} {b : Bool} (h : parseOne d = .seen b) :
    ∃ value, argShape d = .flag "verbose".data value := by
  unfold parseOne at h
  split at h
  · cases h
  · cases h
  · cases h
  · rename_i name value hs
    by_cases hn : name = "verbose".data
    · subst hn
      exact ⟨value, hs⟩
    · rw [if_neg hn] at h
      split at h <;> cases h

/-- An argument on which `parseOne` stops is not of flag shape. -/
theorem parseOne_stop {d : List Char} {c : Bool} (h : parseOne d = .stop c) :
    argShape d = .nonFlag ∨ argShape d = .terminator := by
  unfold parseOne at h
  split at h
  · exact Or.inl (by assumption)
  · exact Or.inr (by assumption)
  · cases h
  · split at h
    · split at h
      · split at h <;> cases h
      · cases h
    · split at h <;> cases h

theorem verboseSetting_eq_some {s : String} {b : Bool} :
    verboseSetting s = some b ↔ parseOne s.data = .seen b := by
  unfold verboseSetting
  split
  · rename_i b1 h
    rw [h]
    constructor
    · intro hb
      cases hb
      rfl
    · intro hb
      cases hb
      rfl
  · rename_i h
    constructor
    · intro hb
      cases hb
    · intro hb
      exact absurd hb (h b)

theorem isFlag_of_seen {s : String} {b : Bool} (h : parseOne s.data = .seen b) :
    isFlag s = true := by
  obtain ⟨value, hv⟩ := parseOne_seen h
  simp [isFlag, hv]

theorem isFlag_of_stop {s : String} {c : Bool} (h : parseOne s.data = .stop c) :
    isFlag s = false := by
  rcases parseOne_stop h with hv | hv <;> simp [isFlag, hv]

theorem mentionsVerbose_of_seen {s : String} {b : Bool} (h : parseOne s.data = .seen b) :
    mentionsVerbose s = true := by
  obtain ⟨value, hv⟩ := parseOne_seen h
  simp [mentionsVerbose, hv]

/-- The outcome of `main` depends on the command line only through the error
or the flag value that parsing ends with. -/
theorem main_congr {App ε : Type} (core : Core App ε) {a b : List String}
    (h : (parseLoop false a).map Prod.fst = (parseLoop false b).map Prod.fst) :
    main core a = main core b := by
  unfold main
  cases ha : parseLoop false a with
  | error e =>
    cases hb : parseLoop false b with
    | error e2 =>
      rw [ha, hb] at h
      cases h
      rfl
    | ok q =>
      rw [ha, hb] at h
      cases h
  | ok q1 =>
    cases hb : parseLoop false b with
    | error e2 =>
      rw [ha, hb] at h
      cases h
    | ok q2 =>
      rw [ha, hb] at h
      obtain ⟨v1, r1⟩ := q1
      obtain ⟨v2, r2⟩ := q2
      have hv : v1 = v2 := by
        have := h
        simp only [Except.map] at this
        cases this
        rfl
      subst hv
      rfl

/-- What `main` does on a command line that parses. -/
theorem main_of_parses {App ε : Type} (core : Core App ε) {args rest : List String} {v : Bool}
    (h : parseLoop false args = .ok (v, rest)) :
    main core args =
      match core.Run (core.NewApp v) with
      | .returned (some err) =>
        { calls := [.NewApp v, .Run (core.NewApp v)], runResult := some (.returned (some err)),
          fatal := some err, fatalMessage := some (core.Error err), exitCode := some 1 }
      | .returned none =>
        { calls := [.NewApp v, .Run (core.NewApp v)], runResult := some (.returned none),
          fatal := none, fatalMessage := none, exitCode := some 0 }
      | .noReturn =>
        { calls := [.NewApp v, .Run (core.NewApp v)], runResult := some .noReturn,
          fatal := none, fatalMessage := none, exitCode := none } := by
  unfold main
  rw [h]

/-- What `main` does on a command line that does not parse. -/
theorem main_of_parse_error {App ε : Type} (core : Core App ε) {args : List String}
    {e : FlagError} (h : parseLoop false args = .error e) :
    main core args =
      { calls := [], runResult := none, fatal := none, fatalMessage := none,
        exitCode := some (flagExitCode e) } := by
  unfold main
  rw [h]

/-- A command line without a flag named `verbose` leaves the flag where it
was. -/
theorem parseLoop_no_mention (args : List String) (v0 v : Bool) (rest : List String)
    (hno : ∀ s ∈ args, mentionsVerbose s = false)
    (h : parseLoop v0 args = .ok (v, rest)) : v = v0 := by
  induction args generalizing v0 with
  | nil =>
    rw [parseLoop_nil] at h
    cases h
    rfl
  | cons s tl ih =>
    rw [parseLoop_cons] at h
    cases hp : parseOne s.data with
    | stop c =>
      rw [hp] at h
      cases h
      rfl
    | fail e =>
      rw [hp] at h
      cases h
    | seen b =>
      have h1 := mentionsVerbose_of_seen hp
      rw [hno s (List.mem_cons_self s tl)] at h1
      cases h1

/-- On a command line that parses, `main` builds the application with the
parsed flag and runs that very application: the calls, the run it reports, the
error it hands to the fatal logger and the exit status all come from
`Run` on `NewApp v`. -/
theorem main_runs_parsed_app {App ε : Type} (core : Core App ε) {args rest : List String}
    {v : Bool} (h : parseLoop false args = .ok (v, rest)) :
    (main core args).calls = [.NewApp v, .Run (core.NewApp v)]
      ∧ (main core args).runResult = some (core.Run (core.NewApp v))
      ∧ ∀ r, core.Run (core.NewApp v) = .returned r →
          (main core args).fatal = r
            ∧ (main core args).exitCode = some (if r.isSome then 1 else 0) := by
  rw [main_of_parses core h]
  cases hr : core.Run (core.NewApp v) with
  | returned q =>
    cases q with
    | none =>
      refine ⟨rfl, rfl, ?_⟩
      intro r hq
      cases hq
      exact ⟨rfl, rfl⟩
    | some e =>
      refine ⟨rfl, rfl, ?_⟩
      intro r hq
      cases hq
      exact ⟨rfl, rfl⟩
  | noReturn =>
    refine ⟨rfl, rfl, ?_⟩
    intro r hq
    cases hq

/-! ## Properties of `main` -/

/-- C1: for every argument list that parses and every result `r` that `Run`
returns, the process terminates with an exit status, which is non-zero if and
only if `r` is a non-nil error, and zero when `r` is nil. -/
theorem main_exit_status_iff_run_error {App ε : Type} (core : Core App ε)
    (args rest : List String) (v : Bool) (r : Option ε)
    (hparse : parseLoop false args = .ok (v, rest))
    (hrun : core.Run (core.NewApp v) = .returned r) :
    ∃ c, (main core args).exitCode = some c ∧ (c ≠ 0 ↔ r ≠ none) ∧ (r = none → c = 0) := by
  rw [main_of_parses core hparse, hrun]
  cases r with
  | none => exact ⟨0, rfl, by simp, fun _ => rfl⟩
  | some e => exact ⟨1, rfl, by simp, fun h => by cases h⟩

theorem main_exit_status_iff_run_error_witness :
    (∃ c, (main (constCore (.returned (some "boom")) id) ["-verbose", "x"]).exitCode = some c
        ∧ (c ≠ 0 ↔ some "boom" ≠ none) ∧ (some "boom" = none → c = 0))
      ∧ (main (constCore (.returned (some "boom")) id) ["-verbose", "x"]).exitCode = some 1 :=
  ⟨main_exit_status_iff_run_error (constCore (.returned (some "boom")) id) ["-verbose", "x"]
      ["x"] true (some "boom") rfl rfl, rfl⟩

/-- C2, refuted as stated: a run that ends by cancellation and reports it as
the distinct `CancellationError` makes `main` take the fatal path and exit with
status 1, not 0. -/
theorem main_cancellation_exits_nonzero :
    (main (constCore (.returned (some RunError.CancellationError)) RunError.Error) []).exitCode
        = some 1
      ∧ (main (constCore (.returned (some RunError.CancellationError)) RunError.Error) []).fatal
        = some RunError.CancellationError := by
  constructor <;> rfl

/-- C2, amended: `main` does not tell a cancellation from any other result of
`Run`.  For every argument list that parses and every result `r` returned by
`Run`, the exit status is zero exactly when `r` is nil; when `Run` reports the
cancellation as the non-nil `CancellationError`, that error is handed to the
fatal logger and the exit status is 1. -/
theorem main_cancellation_error_is_fatal {App : Type} (core : Core App RunError)
    (args rest : List String) (v : Bool) (r : Option RunError)
    (hparse : parseLoop false args = .ok (v, rest))
    (hrun : core.Run (core.NewApp v) = .returned r) :
    ((main core args).exitCode = some 0 ↔ r = none)
      ∧ (r = some .CancellationError →
          (main core args).fatal = some .CancellationError
            ∧ (main core args).exitCode = some 1) := by
  rw [main_of_parses core hparse, hrun]
  cases r with
  | none => exact ⟨by simp, fun h => by cases h⟩
  | some e =>
    refine ⟨by simp, fun h => ?_⟩
    cases h
    exact ⟨rfl, rfl⟩

theorem main_cancellation_error_is_fatal_witness :
    ((main (constCore (.returned (some RunError.CancellationError)) RunError.Error)
          ["-verbose=false"]).exitCode = some 0 ↔ some RunError.CancellationError = none)
      ∧ (some RunError.CancellationError = some RunError.CancellationError →
          (main (constCore (.returned (some RunError.CancellationError)) RunError.Error)
              ["-verbose=false"]).fatal = some .CancellationError
            ∧ (main (constCore (.returned (some RunError.CancellationError)) RunError.Error)
              ["-verbose=false"]).exitCode = some 1) :=
  main_cancellation_error_is_fatal
    (constCore (.returned (some RunError.CancellationError)) RunError.Error)
    ["-verbose=false"] [] false (some .CancellationError) rfl rfl

/-- C3, refuted as stated: the argument list `-x` does not mention `-verbose`,
and `main` does not call `NewApp` at all: flag parsing ends the process with
status 2. -/
theorem main_unknown_flag_never_calls_NewApp :
    (∀ s ∈ ["-x"], mentionsVerbose s = false)
      ∧ (main (constCore (.returned (none : Option String)) id) ["-x"]).calls = []
      ∧ (main (constCore (.returned (none : Option String)) id) ["-x"]).exitCode = some 2 := by
  refine ⟨?_, rfl, rfl⟩
  intro s hs
  rw [List.mem_singleton] at hs
  subst hs
  rfl

/-- C3, amended: the `-verbose` flag is boolean with default false: for every
argument list that does not mention `-verbose` and that parses (in particular
the empty argument list, which parses), `main` calls `NewApp` with the argument
false, and the application it runs is the one `NewApp` built from false: the
run it reports, the error it hands to the fatal logger and the exit status are
those of `Run` on that application. -/
theorem main_default_verbose_false {App ε : Type} (core : Core App ε)
    (args rest : List String) (v : Bool)
    (hno : ∀ s ∈ args, mentionsVerbose s = false)
    (hparse : parseLoop false args = .ok (v, rest)) :
    v = false
      ∧ (main core args).calls = [.NewApp false, .Run (core.NewApp false)]
      ∧ (main core []).calls = [.NewApp false, .Run (core.NewApp false)]
      ∧ (main core args).runResult = some (core.Run (core.NewApp false))
      ∧ (main core []).runResult = some (core.Run (core.NewApp false))
      ∧ ∀ r, core.Run (core.NewApp false) = .returned r →
          (main core args).fatal = r
            ∧ (main core args).exitCode = some (if r.isSome then 1 else 0)
            ∧ (main core []).fatal = r
            ∧ (main core []).exitCode = some (if r.isSome then 1 else 0) := by
  have hv : v = false := parseLoop_no_mention args false v rest hno hparse
  subst hv
  obtain ⟨hc, hr, hx⟩ := main_runs_parsed_app core hparse
  obtain ⟨hc0, hr0, hx0⟩ := main_runs_parsed_app core (parseLoop_nil false)
  refine ⟨rfl, hc, hc0, hr, hr0, ?_⟩
  intro r hrun
  exact ⟨(hx r hrun).1, (hx r hrun).2, (hx0 r hrun).1, (hx0 r hrun).2⟩

theorem main_default_verbose_false_witness :
    false = false
      ∧ (main verbosityCore ["input.txt", "-x"]).calls = [.NewApp false, .Run false]
      ∧ (main verbosityCore []).calls = [.NewApp false, .Run false]
      ∧ (main verbosityCore ["input.txt", "-x"]).runResult = some (.returned (some "quiet"))
      ∧ (main verbosityCore []).runResult = some (.returned (some "quiet"))
      ∧ ∀ r, verbosityCore.Run (verbosityCore.NewApp false) = .returned r →
          (main verbosityCore ["input.txt", "-x"]).fatal = r
            ∧ (main verbosityCore ["input.txt", "-x"]).exitCode
                = some (if r.isSome then 1 else 0)
            ∧ (main verbosityCore []).fatal = r
            ∧ (main verbosityCore []).exitCode = some (if r.isSome then 1 else 0) :=
  main_default_verbose_false verbosityCore ["input.txt", "-x"] ["input.txt", "-x"] false
    (by
      intro s hs
      simp only [List.mem_cons, List.mem_singleton, List.not_mem_nil, or_false] at hs
      rcases hs with hs | hs <;> subst hs <;> rfl)
    rfl

/-- C4: for every non-nil error `e` returned by `Run`, `main` hands `e` itself
to the fatal logger, and the message the logger formats is exactly the message
of `e`. -/
theorem main_surfaces_run_error_verbatim {App ε : Type} (core : Core App ε)
    (args rest : List String) (v : Bool) (e : ε)
    (hparse : parseLoop false args = .ok (v, rest))
    (hrun : core.Run (core.NewApp v) = .returned (some e)) :
    (main core args).fatal = some e
      ∧ (main core args).fatalMessage = some (core.Error e) := by
  rw [main_of_parses core hparse, hrun]
  exact ⟨rfl, rfl⟩

theorem main_surfaces_run_error_verbatim_witness :
    (main (constCore (.returned (some "link down")) (fun m => m)) ["-verbose"]).fatal
        = some "link down"
      ∧ (main (constCore (.returned (some "link down")) (fun m => m)) ["-verbose"]).fatalMessage
        = some "link down" :=
  main_surfaces_run_error_verbatim (constCore (.returned (some "link down")) (fun m => m))
    ["-verbose"] [] true "link down" rfl rfl

/-- C8: for every argument list that parses, whatever the value `v` of
`-verbose`, the calls `main` makes on the core are exactly `NewApp(v)` followed
by one `Run` on the application `NewApp` returned; in particular it never calls
`Cancel`.  That one call of `Run` is the whole boundary: the run `main` reports
is `Run` on that application, and the error it hands to the fatal logger and
the exit status are what that call returned. -/
theorem main_single_call_boundary {App ε : Type} (core : Core App ε)
    (args rest : List String) (v : Bool)
    (hparse : parseLoop false args = .ok (v, rest)) :
    (main core args).calls = [.NewApp v, .Run (core.NewApp v)]
      ∧ (∀ app, Call.Cancel app ∉ (main core args).calls)
      ∧ (main core args).runResult = some (core.Run (core.NewApp v))
      ∧ ∀ r, core.Run (core.NewApp v) = .returned r →
          (main core args).fatal = r
            ∧ (main core args).exitCode = some (if r.isSome then 1 else 0) := by
  obtain ⟨hc, hr, hx⟩ := main_runs_parsed_app core hparse
  refine ⟨hc, ?_, hr, hx⟩
  intro app hmem
  rw [hc] at hmem
  simp at hmem

theorem main_single_call_boundary_witness :
    (main verbosityCore ["--verbose=1", "--", "-q"]).calls = [.NewApp true, .Run true]
      ∧ (∀ app, Call.Cancel app ∉ (main verbosityCore ["--verbose=1", "--", "-q"]).calls)
      ∧ (main verbosityCore ["--verbose=1", "--", "-q"]).runResult
          = some (.returned (some "loud"))
      ∧ ∀ r, verbosityCore.Run (verbosityCore.NewApp true) = .returned r →
          (main verbosityCore ["--verbose=1", "--", "-q"]).fatal = r
            ∧ (main verbosityCore ["--verbose=1", "--", "-q"]).exitCode
                = some (if r.isSome then 1 else 0) :=
  main_single_call_boundary verbosityCore ["--verbose=1", "--", "-q"] ["-q"] true rfl

theorem getLast?_cons_getD (b v0 : Bool) (l : List Bool) :
    ((b :: l).getLast?).getD v0 = (l.getLast?).getD b := by
  cases l with
  | nil => rfl
  | cons x t => rw [List.getLast?_cons_cons]; rfl

/-- The parser ends with the value that the last `verbose` setting among the
flags gives, or with the value it started from. -/
theorem parseLoop_value (args : List String) (v0 v : Bool) (rest : List String)
    (h : parseLoop v0 args = .ok (v, rest)) :
    v = (((args.takeWhile isFlag).filterMap verboseSetting).getLast?).getD v0 := by
  induction args generalizing v0 with
  | nil =>
    rw [parseLoop_nil] at h
    cases h
    rfl
  | cons s tl ih =>
    rw [parseLoop_cons] at h
    cases hp : parseOne s.data with
    | stop c =>
      rw [hp] at h
      cases h
      rw [List.takeWhile_cons, isFlag_of_stop hp]
      rfl
    | fail e =>
      rw [hp] at h
      cases h
    | seen b =>
      rw [hp] at h
      have h1 := ih b h
      rw [List.takeWhile_cons, isFlag_of_seen hp]
      simp only [if_true]
      rw [List.filterMap_cons, verboseSetting_eq_some.mpr hp]
      simp only []
      rw [getLast?_cons_getD]
      exact h1

/-- What follows an argument that is not of flag shape has no part in the
error or the flag value that parsing ends with. -/
theorem parseLoop_after_nonflag (pre : List String) (x : String) (later1 later2 : List String)
    (v0 : Bool) (hx : isFlag x = false) :
    (parseLoop v0 (pre ++ x :: later1)).map Prod.fst
      = (parseLoop v0 (pre ++ x :: later2)).map Prod.fst := by
  induction pre generalizing v0 with
  | nil =>
    simp only [List.nil_append, parseLoop_cons]
    cases hp : parseOne x.data with
    | stop c => rfl
    | fail e => rfl
    | seen b =>
      have := isFlag_of_seen hp
      rw [hx] at this
      cases this
  | cons s tl ih =>
    simp only [List.cons_append, parseLoop_cons]
    cases hp : parseOne s.data with
    | stop c => rfl
    | fail e => rfl
    | seen b => exact ih b

/-- C9: for every argument list that parses, the boolean given to `NewApp` is
the value of the `-verbose` flag after parsing (the last setting of `verbose`
among the flags, default false): true for `-verbose` and `-verbose=true`, false
for `-verbose=false`; the application `main` runs is the one built from that
boolean; and the arguments after the first argument that is not a flag do not
change what `main` does. -/
theorem main_passes_parsed_verbose {App ε : Type} (core : Core App ε)
    (args rest : List String) (v : Bool)
    (pre : List String) (x : String) (later1 later2 : List String)
    (hparse : parseLoop false args = .ok (v, rest))
    (hx : isFlag x = false) :
    v = flagValue args
      ∧ (main core args).calls = [.NewApp (flagValue args), .Run (core.NewApp (flagValue args))]
      ∧ (main core ["-verbose"]).calls = [.NewApp true, .Run (core.NewApp true)]
      ∧ (main core ["-verbose=true"]).calls = [.NewApp true, .Run (core.NewApp true)]
      ∧ (main core ["-verbose=false"]).calls = [.NewApp false, .Run (core.NewApp false)]
      ∧ main core (pre ++ x :: later1) = main core (pre ++ x :: later2)
      ∧ (main core args).runResult = some (core.Run (core.NewApp (flagValue args)))
      ∧ (main core ["-verbose"]).runResult = some (core.Run (core.NewApp true))
      ∧ (main core ["-verbose=true"]).runResult = some (core.Run (core.NewApp true))
      ∧ (main core ["-verbose=false"]).runResult = some (core.Run (core.NewApp false))
      ∧ ∀ r, core.Run (core.NewApp (flagValue args)) = .returned r →
          (main core args).fatal = r
            ∧ (main core args).exitCode = some (if r.isSome then 1 else 0) := by
  have hv : v = flagValue args := parseLoop_value args false v rest hparse
  have hmain := main_runs_parsed_app core hparse
  rw [hv] at hmain
  have h1 := main_runs_parsed_app core (show parseLoop false ["-verbose"] = .ok (true, []) from rfl)
  have h2 := main_runs_parsed_app core
    (show parseLoop false ["-verbose=true"] = .ok (true, []) from rfl)
  have h3 := main_runs_parsed_app core
    (show parseLoop false ["-verbose=false"] = .ok (false, []) from rfl)
  exact ⟨hv, hmain.1, h1.1, h2.1, h3.1,
    main_congr core (parseLoop_after_nonflag pre x later1 later2 false hx),
    hmain.2.1, h1.2.1, h2.2.1, h3.2.1, hmain.2.2⟩

theorem main_passes_parsed_verbose_witness :
    true = flagValue ["-verbose=0", "--verbose=T", "out", "-verbose=0"]
      ∧ (main verbosityCore ["-verbose=0", "--verbose=T", "out", "-verbose=0"]).calls
          = [.NewApp true, .Run true]
      ∧ (main verbosityCore ["-verbose"]).calls = [.NewApp true, .Run true]
      ∧ (main verbosityCore ["-verbose=true"]).calls = [.NewApp true, .Run true]
      ∧ (main verbosityCore ["-verbose=false"]).calls = [.NewApp false, .Run false]
      ∧ main verbosityCore (["-verbose"] ++ "out" :: ["-verbose=false", "-zzz"])
          = main verbosityCore (["-verbose"] ++ "out" :: [])
      ∧ (main verbosityCore ["-verbose=0", "--verbose=T", "out", "-verbose=0"]).runResult
          = some (.returned (some "loud"))
      ∧ (main verbosityCore ["-verbose"]).runResult = some (.returned (some "loud"))
      ∧ (main verbosityCore ["-verbose=true"]).runResult = some (.returned (some "loud"))
      ∧ (main verbosityCore ["-verbose=false"]).runResult = some (.returned (some "quiet"))
      ∧ ∀ r, verbosityCore.Run
            (verbosityCore.NewApp (flagValue ["-verbose=0", "--verbose=T", "out", "-verbose=0"]))
            = .returned r →
          (main verbosityCore ["-verbose=0", "--verbose=T", "out", "-verbose=0"]).fatal = r
            ∧ (main verbosityCore ["-verbose=0", "--verbose=T", "out", "-verbose=0"]).exitCode
                = some (if r.isSome then 1 else 0) :=
  main_passes_parsed_verbose verbosityCore
    ["-verbose=0", "--verbose=T", "out", "-verbose=0"] ["out", "-verbose=0"] true
    ["-verbose"] "out" ["-verbose=false", "-zzz"] [] rfl rfl

/-- A flag that the command line does not accept makes `parseOne` fail, with
the help error for `-h` and `-help` and another error otherwise. -/
theorem parseOne_rejected {s : String} (hs : rejectedFlag s = true) :
    ∃ e, parseOne s.data = .fail e ∧ flagExitCode e = if asksHelp s then 0 else 2 := by
  unfold rejectedFlag at hs
  unfold parseOne asksHelp
  cases hsh : argShape s.data with
  | nonFlag => rw [hsh] at hs; cases hs
  | terminator => rw [hsh] at hs; cases hs
  | badFlag => rw [hsh] at hs; cases hs
  | flag name value =>
    rw [hsh] at hs
    simp only [] at hs ⊢
    by_cases hn : name = "verbose".data
    · subst hn
      cases value with
      | none => simp at hs
      | some val =>
        simp only [bne_self_eq_false, Bool.false_or, Option.isNone_iff_eq_none] at hs
        simp [hs, flagExitCode]
    · by_cases hh : name = "help".data ∨ name = "h".data
      · refine ⟨.help, by simp [hn, hh], ?_⟩
        rcases hh with hh | hh <;> simp [hh, flagExitCode]
      · refine ⟨.notDefined name, by simp [hn, hh], ?_⟩
        have h1 : name ≠ "help".data := fun h => hh (Or.inl h)
        have h2 : name ≠ "h".data := fun h => hh (Or.inr h)
        simp [h1, h2, flagExitCode]

/-- Arguments that set `verbose` are all consumed by the parser. -/
theorem parseLoop_append_settings (pre l : List String) (v0 : Bool)
    (hpre : ∀ x ∈ pre, (verboseSetting x).isSome) :
    ∃ v1, parseLoop v0 (pre ++ l) = parseLoop v1 l := by
  induction pre generalizing v0 with
  | nil => exact ⟨v0, rfl⟩
  | cons s tl ih =>
    have hs := hpre s (List.mem_cons_self s tl)
    obtain ⟨b, hb⟩ := Option.isSome_iff_exists.mp hs
    have hp := verboseSetting_eq_some.mp hb
    obtain ⟨v1, hv1⟩ := ih b (fun x hx => hpre x (List.mem_cons_of_mem s hx))
    refine ⟨v1, ?_⟩
    rw [List.cons_append, parseLoop_cons, hp]
    exact hv1

/-- C10, refuted as stated: `-h` is a flag with a name other than `verbose`,
and the process ends with status 0; and after the terminator `--` a flag with
another name is no longer parsed, so that `NewApp` and `Run` are called. -/
theorem main_help_flag_exits_zero :
    rejectedFlag "-h" = true
      ∧ (main (constCore (.returned (none : Option String)) id) ["-h"]).exitCode = some 0
      ∧ rejectedFlag "-foo" = true
      ∧ (main (constCore (.returned (none : Option String)) id) ["--", "-foo"]).calls
          = [.NewApp false, .Run false] := by
  refine ⟨rfl, rfl, rfl, rfl⟩

/-- C10, amended: the command line accepts no flag other than `-verbose`.
When the first argument that does not set `-verbose` to a boolean is a flag
with another name, or `-verbose` with a value that is not a boolean, flag
parsing fails and the process terminates before `NewApp` is called, so `Run` is
never invoked; the exit status is 2, except for the undefined flags `-h` and
`-help`, where it is 0. -/
theorem main_rejects_other_flags {App ε : Type} (core : Core App ε)
    (pre : List String) (s : String) (rest : List String)
    (hpre : ∀ x ∈ pre, (verboseSetting x).isSome)
    (hs : rejectedFlag s = true) :
    (main core (pre ++ s :: rest)).calls = []
      ∧ (main core (pre ++ s :: rest)).runResult = none
      ∧ (main core (pre ++ s :: rest)).exitCode = some (if asksHelp s then 0 else 2) := by
  obtain ⟨v1, hv1⟩ := parseLoop_append_settings pre (s :: rest) false hpre
  obtain ⟨e, he, hcode⟩ := parseOne_rejected hs
  have herr : parseLoop false (pre ++ s :: rest) = .error e := by
    rw [hv1, parseLoop_cons, he]
  rw [main_of_parse_error core herr, hcode]
  exact ⟨rfl, rfl, rfl⟩

theorem main_rejects_other_flags_witness :
    (main (constCore (.returned (none : Option String)) id)
          (["-verbose", "--verbose=0"] ++ "-verbose=maybe" :: ["x"])).calls = []
      ∧ (main (constCore (.returned (none : Option String)) id)
          (["-verbose", "--verbose=0"] ++ "-verbose=maybe" :: ["x"])).runResult = none
      ∧ (main (constCore (.returned (none : Option String)) id)
          (["-verbose", "--verbose=0"] ++ "-verbose=maybe" :: ["x"])).exitCode
          = some (if asksHelp "-verbose=maybe" then 0 else 2) :=
  main_rejects_other_flags (constCore (.returned (none : Option String)) id)
    ["-verbose", "--verbose=0"] "-verbose=maybe" ["x"]
    (by
      intro x hx
      simp only [List.mem_cons, List.mem_singleton, List.not_mem_nil, or_false] at hx
      rcases hx with hx | hx <;> subst hx <;> rfl)
    rfl

/-! ## Properties of the modelled scheduler -/

theorem Entry.before_iff (a b : Entry) :
    a.before b = true ↔ a.time < b.time ∨ (a.time = b.time ∧ a.seq < b.seq) := by
  simp [Entry.before]

theorem Entry.before_time_le {a b : Entry} (h : a.before b = true) : a.time ≤ b.time := by
  rcases (Entry.before_iff a b).mp h with h1 | ⟨h1, _⟩
  · exact Nat.le_of_lt h1
  · exact Nat.le_of_eq h1

theorem mem_enqueue (e x : Entry) (q : List Entry) : x ∈ enqueue e q ↔ x = e ∨ x ∈ q := by
  induction q with
  | nil => simp [enqueue]
  | cons h t ih =>
    unfold enqueue
    split
    · simp
    · simp only [List.mem_cons, ih]
      constructor
      · rintro (h1 | h1 | h1)
        · exact Or.inr (Or.inl h1)
        · exact Or.inl h1
        · exact Or.inr (Or.inr h1)
      · rintro (h1 | h1 | h1)
        · exact Or.inr (Or.inl h1)
        · exact Or.inl h1
        · exact Or.inr (Or.inr h1)

theorem enqueue_perm (e : Entry) (q : List Entry) : (enqueue e q).Perm (e :: q) := by
  induction q with
  | nil => exact List.Perm.refl _
  | cons h t ih =>
    unfold enqueue
    split
    · exact List.Perm.refl _
    · exact (List.Perm.cons h ih).trans (List.Perm.swap e h t)

theorem enqueue_length (e : Entry) (q : List Entry) : (enqueue e q).length = q.length + 1 := by
  simpa using (enqueue_perm e q).length_eq

/-- With a sequence number above those of the queue, the new entry goes behind
every entry that is not later in time, and the queue stays in order. -/
theorem enqueue_sorted (e : Entry) (q : List Entry)
    (hs : q.Pairwise (fun a b => a.before b = true))
    (hfresh : ∀ x ∈ q, x.seq < e.seq) :
    (enqueue e q).Pairwise (fun a b => a.before b = true) := by
  induction q with
  | nil => simp [enqueue]
  | cons h t ih =>
    have hht := List.pairwise_cons.mp hs
    unfold enqueue
    split
    · rename_i hb
      refine List.pairwise_cons.mpr ⟨?_, hs⟩
      intro y hy
      rcases List.mem_cons.mp hy with hy | hy
      · subst hy
        exact hb
      · have h1 := (Entry.before_iff e h).mp hb
        have h2 := Entry.before_time_le (hht.1 y hy)
        have h3 := hfresh h (List.mem_cons_self h t)
        refine (Entry.before_iff e y).mpr (Or.inl ?_)
        rcases h1 with h1 | ⟨_, h1⟩
        · exact Nat.lt_of_lt_of_le h1 h2
        · exact absurd h1 (Nat.lt_asymm h3)
    · rename_i hb
      refine List.pairwise_cons.mpr ⟨?_, ih hht.2 (fun x hx => hfresh x (List.mem_cons_of_mem h hx))⟩
      intro y hy
      rcases (mem_enqueue e y t).mp hy with hy | hy
      · subst hy
        have h3 := hfresh h (List.mem_cons_self h t)
        have hnb : ¬ (y.time < h.time ∨ (y.time = h.time ∧ y.seq < h.seq)) :=
          fun hc => hb ((Entry.before_iff y h).mpr hc)
        refine (Entry.before_iff h y).mpr ?_
        rcases Nat.lt_or_ge h.time y.time with h4 | h4
        · exact Or.inl h4
        · rcases Nat.lt_or_ge y.time h.time with h5 | h5
          · exact absurd (Or.inl h5) hnb
          · exact Or.inr ⟨Nat.le_antisymm h5 h4, h3⟩
      · exact hht.1 y hy

theorem atTime_append (t : Time) (a b : List Event) :
    atTime t (a ++ b) = atTime t a ++ atTime t b := by
  simp [atTime]

theorem atTime_cons (t : Time) (e : Event) (l : List Event) :
    atTime t (e :: l) = atTime t [e] ++ atTime t l := by
  rw [← atTime_append]
  rfl

/-- Events that are all later than `t` have none at time `t`. -/
theorem atTime_eq_nil (t : Time) (q : List Entry)
    (hk : ∀ x ∈ q, x.time = x.event.time) (hlt : ∀ x ∈ q, t < x.time) :
    atTime t (q.map Entry.event) = [] := by
  unfold atTime
  rw [List.filter_eq_nil_iff]
  intro ev hev
  obtain ⟨x, hx, rfl⟩ := List.mem_map.mp hev
  have h1 := hlt x hx
  rw [hk x hx] at h1
  simp only [decide_eq_true_eq]
  exact fun h => absurd h (Nat.ne_of_gt h1)

/-- Among the events of one time the new entry is the last of the queue. -/
theorem enqueue_atTime (e : Entry) (q : List Entry) (t : Time)
    (hs : q.Pairwise (fun a b => a.before b = true))
    (hfresh : ∀ x ∈ q, x.seq < e.seq)
    (hk : ∀ x ∈ q, x.time = x.event.time) (hke : e.time = e.event.time) :
    atTime t ((enqueue e q).map Entry.event)
      = atTime t (q.map Entry.event) ++ atTime t [e.event] := by
  induction q with
  | nil => simp [enqueue, atTime]
  | cons h tl ih =>
    have hht := List.pairwise_cons.mp hs
    unfold enqueue
    split
    · rename_i hb
      have h3 := hfresh h (List.mem_cons_self h tl)
      have hlt : e.time < h.time := by
        rcases (Entry.before_iff e h).mp hb with h1 | ⟨_, h1⟩
        · exact h1
        · exact absurd h1 (Nat.lt_asymm h3)
      have hall : ∀ x ∈ h :: tl, e.time < x.time := by
        intro x hx
        rcases List.mem_cons.mp hx with hx | hx
        · subst hx
          exact hlt
        · exact Nat.lt_of_lt_of_le hlt (Entry.before_time_le (hht.1 x hx))
      rw [List.map_cons, atTime_cons]
      by_cases ht : e.event.time = t
      · have hnil : atTime t ((h :: tl).map Entry.event) = [] := by
          apply atTime_eq_nil t (h :: tl) hk
          intro x hx
          have := hall x hx
          rw [hke, ht] at this
          exact this
        rw [hnil]
        simp
      · have : atTime t [e.event] = [] := by
          simp [atTime, ht]
        rw [this]
        simp
    · rw [List.map_cons, atTime_cons, ih hht.2 (fun x hx => hfresh x (List.mem_cons_of_mem h hx))
        (fun x hx => hk x (List.mem_cons_of_mem h hx)), List.map_cons,
        atTime_cons t h.event (tl.map Entry.event), List.append_assoc]

theorem History.Inv_start : History.start.Inv where
  sorted := List.Pairwise.nil
  fresh := fun _ h => by cases h
  future := fun _ h => by cases h
  keyed := fun _ h => by cases h
  past := fun _ h => by cases h
  ordered := List.Pairwise.nil
  fifo := fun _ => rfl
  all := List.Perm.refl _

/-- Scheduling an event keeps the invariant. -/
theorem History.Inv_schedule {h h1 : History} {ev : Event} (hi : h.Inv)
    (ha : h.apply (.schedule ev) = .ok h1) : h1.Inv := by
  simp only [History.apply, Schedule] at ha
  by_cases hlt : ev.time < h.sched.now
  · simp [hlt] at ha
  · simp only [hlt, if_false] at ha
    cases ha
    refine { sorted := ?_, fresh := ?_, future := ?_, keyed := ?_, past := ?_, ordered := ?_,
             fifo := ?_, all := ?_ }
    · exact enqueue_sorted _ _ hi.sorted hi.fresh
    · intro x hx
      rcases (mem_enqueue _ _ _).mp hx with hx | hx
      · subst hx
        exact Nat.lt_succ_self _
      · exact Nat.lt_succ_of_lt (hi.fresh x hx)
    · intro x hx
      rcases (mem_enqueue _ _ _).mp hx with hx | hx
      · subst hx
        exact Nat.le_of_not_lt hlt
      · exact hi.future x hx
    · intro x hx
      rcases (mem_enqueue _ _ _).mp hx with hx | hx
      · subst hx
        rfl
      · exact hi.keyed x hx
    · exact hi.past
    · exact hi.ordered
    · intro t
      show atTime t h.dispatched ++ atTime t ((enqueue _ h.sched.queue).map Entry.event)
        = atTime t (h.inserted ++ [ev])
      rw [enqueue_atTime _ _ t hi.sorted hi.fresh hi.keyed rfl, atTime_append, ← hi.fifo t,
        List.append_assoc]
    · show (h.dispatched ++ (enqueue _ h.sched.queue).map Entry.event).Perm (h.inserted ++ [ev])
      have h1 := (enqueue_perm { time := ev.time, seq := h.sched.nextSeq, event := ev }
        h.sched.queue).map Entry.event
      have h2 := List.Perm.append_left h.dispatched h1
      refine h2.trans ?_
      rw [List.map_cons]
      refine List.perm_middle.trans ?_
      exact (List.Perm.cons ev hi.all).trans (List.perm_append_singleton ev h.inserted).symm

/-- A call of `Next` keeps the invariant. -/
theorem History.Inv_next {h h1 : History} (hi : h.Inv)
    (ha : h.apply .next = .ok h1) : h1.Inv := by
  simp only [History.apply, Next] at ha
  cases hq : h.sched.queue with
  | nil =>
    simp only [hq] at ha
    cases ha
    exact hi
  | cons e rest =>
    simp only [hq] at ha
    cases ha
    have hsorted := hi.sorted
    rw [hq] at hsorted
    have hht := List.pairwise_cons.mp hsorted
    have hmem : ∀ x ∈ rest, x ∈ h.sched.queue := by
      intro x hx
      rw [hq]
      exact List.mem_cons_of_mem e hx
    have he : e ∈ h.sched.queue := by
      rw [hq]
      exact List.mem_cons_self e rest
    have hfifo := hi.fifo
    have hall := hi.all
    rw [hq] at hfifo hall
    refine { sorted := ?_, fresh := ?_, future := ?_, keyed := ?_, past := ?_, ordered := ?_,
             fifo := ?_, all := ?_ }
    · exact hht.2
    · exact fun x hx => hi.fresh x (hmem x hx)
    · exact fun x hx => Entry.before_time_le (hht.1 x hx)
    · exact fun x hx => hi.keyed x (hmem x hx)
    · intro d hd
      show d.time ≤ e.time
      rcases List.mem_append.mp hd with hd | hd
      · exact Nat.le_trans (hi.past d hd) (hi.future e he)
      · rw [List.mem_singleton] at hd
        subst hd
        exact Nat.le_of_eq (hi.keyed e he).symm
    · show (h.dispatched ++ [e.event]).Pairwise (fun a b => a.time ≤ b.time)
      refine List.pairwise_append.mpr ⟨hi.ordered, List.pairwise_singleton _ _, ?_⟩
      intro a ha b hb
      rw [List.mem_singleton] at hb
      subst hb
      rw [← hi.keyed e he]
      exact Nat.le_trans (hi.past a ha) (hi.future e he)
    · intro t
      show atTime t (h.dispatched ++ [e.event]) ++ atTime t (rest.map Entry.event)
        = atTime t h.inserted
      rw [← hfifo t, List.map_cons, atTime_cons t e.event, atTime_append, List.append_assoc]
    · show ((h.dispatched ++ [e.event]) ++ rest.map Entry.event).Perm h.inserted
      rw [List.map_cons] at hall
      rw [List.append_assoc]
      exact hall

theorem History.Inv_apply {h h1 : History} {op : SchedOp} (hi : h.Inv)
    (ha : h.apply op = .ok h1) : h1.Inv := by
  cases op with
  | schedule ev => exact History.Inv_schedule hi ha
  | next => exact History.Inv_next hi ha

theorem History.run_nil (h : History) : h.run [] = .ok h := rfl

theorem History.run_cons (h : History) (op : SchedOp) (ops : List SchedOp) :
    h.run (op :: ops) =
      match h.apply op with
      | .ok h1 => h1.run ops
      | .error v => .error v := rfl

/-- Every history reached from one with the invariant has the invariant. -/
theorem History.Inv_run {ops : List SchedOp} {h h1 : History} (hi : h.Inv)
    (hr : h.run ops = .ok h1) : h1.Inv := by
  induction ops generalizing h with
  | nil =>
    rw [History.run_nil] at hr
    cases hr
    exact hi
  | cons op ops ih =>
    rw [History.run_cons] at hr
    cases ha : h.apply op with
    | error v =>
      rw [ha] at hr
      cases hr
    | ok h2 =>
      rw [ha] at hr
      exact ih (History.Inv_apply hi ha) hr

theorem History.run_append (h : History) (a b : List SchedOp) :
    h.run (a ++ b) =
      match h.run a with
      | .ok h1 => h1.run b
      | .error v => .error v := by
  induction a generalizing h with
  | nil => rfl
  | cons op ops ih =>
    rw [List.cons_append, History.run_cons, History.run_cons]
    cases h.apply op with
    | error v => rfl
    | ok h2 => exact ih h2

/-- Scheduling a batch of events on a scheduler whose clock is still 0 never
fails. -/
theorem History.run_schedules (evs : List Event) (h : History) (hnow : h.sched.now = 0) :
    ∃ h1, h.run (evs.map SchedOp.schedule) = .ok h1
      ∧ h1.inserted = h.inserted ++ evs
      ∧ h1.dispatched = h.dispatched
      ∧ h1.sched.queue.length = h.sched.queue.length + evs.length := by
  induction evs generalizing h with
  | nil => exact ⟨h, rfl, by simp, rfl, rfl⟩
  | cons ev tl ih =>
    have hnot : ¬ ev.time < h.sched.now := by
      rw [hnow]
      exact Nat.not_lt_zero _
    have ha : h.apply (.schedule ev) = .ok
        { h with
          sched := { h.sched with
            queue := enqueue { time := ev.time, seq := h.sched.nextSeq, event := ev } h.sched.queue
            nextSeq := h.sched.nextSeq + 1 }
          inserted := h.inserted ++ [ev] } := by
      simp only [History.apply, Schedule, hnot, if_false]
    obtain ⟨h1, hr, hins, hdis, hlen⟩ := ih
      { h with
        sched := { h.sched with
          queue := enqueue { time := ev.time, seq := h.sched.nextSeq, event := ev } h.sched.queue
          nextSeq := h.sched.nextSeq + 1 }
        inserted := h.inserted ++ [ev] } hnow
    refine ⟨h1, ?_, ?_, ?_, ?_⟩
    · rw [List.map_cons, History.run_cons, ha]
      exact hr
    · rw [hins]
      simp
    · rw [hdis]
    · rw [hlen]
      simp only [enqueue_length, List.length_cons]
      omega

/-- Calling `Next` `n` times never fails and takes `n` events off the queue, or
all of them. -/
theorem History.run_nexts (n : Nat) (h : History) :
    ∃ h1, h.run (List.replicate n SchedOp.next) = .ok h1
      ∧ h1.inserted = h.inserted
      ∧ h1.sched.queue.length = h.sched.queue.length - n := by
  induction n generalizing h with
  | zero => exact ⟨h, rfl, rfl, rfl⟩
  | succ n ih =>
    cases hq : h.sched.queue with
    | nil =>
      have ha : h.apply .next = .ok { h with sched := h.sched } := by
        simp only [History.apply, Next, hq]
      obtain ⟨h1, hr, hins, hlen⟩ := ih { h with sched := h.sched }
      refine ⟨h1, ?_, hins, ?_⟩
      · rw [List.replicate_succ, History.run_cons, ha]
        exact hr
      · rw [hlen]
        simp [hq]
    | cons e rest =>
      have ha : h.apply .next = .ok
          { h with
            sched := { h.sched with queue := rest, now := e.time }
            dispatched := h.dispatched ++ [e.event] } := by
        simp only [History.apply, Next, hq]
      obtain ⟨h1, hr, hins, hlen⟩ := ih
        { h with
          sched := { h.sched with queue := rest, now := e.time }
          dispatched := h.dispatched ++ [e.event] }
      refine ⟨h1, ?_, hins, ?_⟩
      · rw [List.replicate_succ, History.run_cons, ha]
        exact hr
      · rw [hlen]
        simp

/-- C6: for every sequence of scheduler operations from a new scheduler, the
events returned by `Next` are non-decreasing in time, and at every timestamp
they are the first of the events inserted with that timestamp, in insertion
order.  In particular, scheduling any list of events and then calling `Next`
at least as many times never fails, empties the queue and returns every event
once, in non-decreasing order of time and, among equal timestamps, in insertion
order. -/
theorem scheduler_dispatch_order (ops : List SchedOp) (h : History)
    (evs : List Event) (n : Nat)
    (hrun : History.start.run ops = .ok h)
    (hn : evs.length ≤ n) :
    h.dispatched.Pairwise (fun a b => a.time ≤ b.time)
      ∧ (∀ t, atTime t h.dispatched <+: atTime t h.inserted)
      ∧ ∃ hd, History.start.run (scheduleThenDrain evs n) = .ok hd
          ∧ hd.inserted = evs
          ∧ (Next hd.sched).1 = none
          ∧ hd.dispatched.Pairwise (fun a b => a.time ≤ b.time)
          ∧ (∀ t, atTime t hd.dispatched = atTime t evs)
          ∧ hd.dispatched.Perm evs := by
  have hi := History.Inv_run History.Inv_start hrun
  refine ⟨hi.ordered, fun t => ⟨_, hi.fifo t⟩, ?_⟩
  obtain ⟨h1, hr1, hins1, _, hlen1⟩ := History.run_schedules evs History.start rfl
  obtain ⟨h2, hr2, hins2, hlen2⟩ := History.run_nexts n h1
  have hr : History.start.run (scheduleThenDrain evs n) = .ok h2 := by
    unfold scheduleThenDrain
    rw [History.run_append, hr1]
    exact hr2
  have hi2 := History.Inv_run History.Inv_start hr
  have hq : h2.sched.queue = [] := by
    apply List.eq_nil_of_length_eq_zero
    rw [hlen2, hlen1]
    simp only [History.start, Scheduler.empty, List.length_nil]
    omega
  have hins : h2.inserted = evs := by
    rw [hins2, hins1]
    rfl
  refine ⟨h2, hr, hins, ?_, hi2.ordered, ?_, ?_⟩
  · simp only [Next, hq]
  · intro t
    have := hi2.fifo t
    rw [hq, hins] at this
    simpa [atTime] using this
  · have := hi2.all
    rw [hq, hins] at this
    simpa using this

theorem scheduler_dispatch_order_witness :
    sampleHistory.dispatched.Pairwise (fun a b => a.time ≤ b.time)
      ∧ (∀ t, atTime t sampleHistory.dispatched <+: atTime t sampleHistory.inserted)
      ∧ ∃ hd, History.start.run (scheduleThenDrain sampleEvents 6) = .ok hd
          ∧ hd.inserted = sampleEvents
          ∧ (Next hd.sched).1 = none
          ∧ hd.dispatched.Pairwise (fun a b => a.time ≤ b.time)
          ∧ (∀ t, atTime t hd.dispatched = atTime t sampleEvents)
          ∧ hd.dispatched.Perm sampleEvents :=
  scheduler_dispatch_order sampleOps sampleHistory sampleEvents 6 rfl (by decide)

/-! ## Properties of the modelled link model -/

/-- C7: for every link with `partitioned = true`, every packet and every `now`,
`Resolve` returns with `drop = true`, whatever the latency configuration, the
loss probability and the state of the random source; and whenever `Resolve`
returns a packet that is not dropped, `deliverAt` is strictly greater than
`now`. -/
theorem Resolve_partition_and_causality {ρ : Type} (g : Generator ρ)
    (cut link : Link) (packet : Packet) (now : Time) (r r1 : ρ) (res : Resolution)
    (hcut : cut.partitioned = true)
    (hres : Resolve g link packet now r = .ok (res, r1))
    (hkept : res.drop = false) :
    (∃ res0 r0, Resolve g cut packet now r = .ok (res0, r0) ∧ res0.drop = true)
      ∧ now < res.deliverAt := by
  constructor
  · refine ⟨{ deliverAt := 0, drop := true }, r, ?_, rfl⟩
    unfold Resolve
    rw [if_pos hcut]
  · unfold Resolve at hres
    by_cases hp : link.partitioned = true
    · rw [if_pos hp] at hres
      cases hres
      cases hkept
    · rw [if_neg hp] at hres
      simp only [] at hres
      by_cases hloss : (g.chance (drawLatency g link.latency r).2).1 < link.lossProbability
      · rw [if_pos hloss] at hres
        cases hres
        cases hkept
      · rw [if_neg hloss] at hres
        by_cases hz : (drawLatency g link.latency r).1 = 0
        · rw [if_pos hz] at hres
          cases hres
        · rw [if_neg hz] at hres
          cases hres
          exact Nat.lt_add_of_pos_right (Nat.pos_of_ne_zero hz)

theorem Resolve_partition_and_causality_witness :
    (∃ res0 r0, Resolve sampleGenerator (sampleLink true) samplePacket 7 0 = .ok (res0, r0)
        ∧ res0.drop = true)
      ∧ 7 < ({ deliverAt := 17, drop := false } : Resolution).deliverAt :=
  Resolve_partition_and_causality sampleGenerator (sampleLink true) (sampleLink false)
    samplePacket 7 0 1 { deliverAt := 17, drop := false } rfl
    (by simp [Resolve, sampleLink, sampleGenerator, drawLatency]) rfl

/-! ## Properties of the modelled orchestrator -/

/-- The verbosity has no part in where the dispatch loop stops nor in the
state it stops with. -/
theorem loop_verbose {σ ρ : Type} (cfg : Config σ ρ) (v1 v2 : Bool) (fuel : Nat)
    (sim : Sim σ ρ) (log1 log2 : List String) :
    (loop v1 cfg fuel sim log1).map (fun x => (x.1, x.2.1))
      = (loop v2 cfg fuel sim log2).map (fun x => (x.1, x.2.1)) := by
  induction fuel generalizing sim log1 log2 with
  | zero => rfl
  | succ n ih =>
    unfold loop
    cases step cfg sim with
    | error stop => rfl
    | ok q => exact ih q.1 _ _

/-- The result of `Run` is the same at both verbosities. -/
theorem Run_verbose {σ ρ : Type} (cfg : Config σ ρ) (fuel : Nat) (v1 v2 : Bool) :
    (Run fuel (NewApp cfg v1)).1 = (Run fuel (NewApp cfg v2)).1 := by
  unfold Run NewApp
  simp only []
  cases buildRegistry cfg with
  | error e => rfl
  | ok reg =>
    cases seedScheduler cfg.initial with
    | error v => rfl
    | ok sched =>
      simp only []
      have h := loop_verbose cfg v1 v2 fuel
        { registry := reg, scheduler := sched, nodes := cfg.nodes, rng := cfg.seed,
          faults := [], dispatches := 0 } [] []
      revert h
      cases loop v1 cfg fuel
        { registry := reg, scheduler := sched, nodes := cfg.nodes, rng := cfg.seed,
          faults := [], dispatches := 0 } [] with
      | none =>
        cases loop v2 cfg fuel
          { registry := reg, scheduler := sched, nodes := cfg.nodes, rng := cfg.seed,
            faults := [], dispatches := 0 } [] with
        | none => intro _; rfl
        | some q2 => intro h; cases h
      | some q1 =>
        cases loop v2 cfg fuel
          { registry := reg, scheduler := sched, nodes := cfg.nodes, rng := cfg.seed,
            faults := [], dispatches := 0 } [] with
        | none => intro h; cases h
        | some q2 =>
          intro h
          obtain ⟨s1, m1, l1⟩ := q1
          obtain ⟨s2, m2, l2⟩ := q2
          simp only [Option.map_some', Option.some.injEq, Prod.mk.injEq] at h
          obtain ⟨hs, hm⟩ := h
          subst hs
          subst hm
          cases s1 with
          | drained => by_cases hf : m1.faults.isEmpty = true <;> simp [hf]
          | timeBound => by_cases hf : m1.faults.isEmpty = true <;> simp [hf]
          | cancelled => rfl
          | aborted v => rfl

/-- Two command lines that differ only in the value of `-verbose` parse alike:
both fail with the same error, or both succeed. -/
theorem parseLoop_differs {a b : List String} (hd : DiffersOnlyInVerbose a b) (v1 v2 : Bool) :
    (parseLoop v1 a).map (fun _ => ()) = (parseLoop v2 b).map (fun _ => ()) := by
  induction hd generalizing v1 v2 with
  | nil => rfl
  | same s _ ih =>
    rw [parseLoop_cons, parseLoop_cons]
    cases parseOne s.data with
    | stop c => rfl
    | fail e => rfl
    | seen x => exact ih x x
  | left s hs _ ih =>
    obtain ⟨x, hx⟩ := Option.isSome_iff_exists.mp hs
    rw [parseLoop_cons, verboseSetting_eq_some.mp hx]
    exact ih x v2
  | right s hs _ ih =>
    obtain ⟨x, hx⟩ := Option.isSome_iff_exists.mp hs
    rw [parseLoop_cons, verboseSetting_eq_some.mp hx]
    exact ih v1 x

/-- C5: for any two argument lists that differ only in the value of `-verbose`,
the two executions yield the same `Run` result (nil, the same error, or no
return in both) and the same process exit status, with the application of the
modelled package at any configuration. -/
theorem verbose_does_not_alter_outcome {σ ρ : Type} (cfg : Config σ ρ) (fuel : Nat)
    (a b : List String) (hd : DiffersOnlyInVerbose a b) :
    (main (specCore cfg fuel) a).runResult = (main (specCore cfg fuel) b).runResult
      ∧ (main (specCore cfg fuel) a).fatal = (main (specCore cfg fuel) b).fatal
      ∧ (main (specCore cfg fuel) a).exitCode = (main (specCore cfg fuel) b).exitCode := by
  have hp := parseLoop_differs hd false false
  cases ha : parseLoop false a with
  | error e1 =>
    cases hb : parseLoop false b with
    | error e2 =>
      rw [ha, hb] at hp
      cases hp
      rw [main_of_parse_error _ ha, main_of_parse_error _ hb]
      exact ⟨rfl, rfl, rfl⟩
    | ok q2 =>
      rw [ha, hb] at hp
      cases hp
  | ok q1 =>
    cases hb : parseLoop false b with
    | error e2 =>
      rw [ha, hb] at hp
      cases hp
    | ok q2 =>
      obtain ⟨v1, r1⟩ := q1
      obtain ⟨v2, r2⟩ := q2
      rw [main_of_parses _ ha, main_of_parses _ hb]
      have hrun : (specCore cfg fuel).Run ((specCore cfg fuel).NewApp v1)
          = (specCore cfg fuel).Run ((specCore cfg fuel).NewApp v2) :=
        Run_verbose cfg fuel v1 v2
      rw [hrun]
      cases (specCore cfg fuel).Run ((specCore cfg fuel).NewApp v2) with
      | returned r => cases r <;> exact ⟨rfl, rfl, rfl⟩
      | noReturn => exact ⟨rfl, rfl, rfl⟩

theorem verbose_does_not_alter_outcome_witness :
    (main (specCore sampleConfig 5) ["-verbose", "trace.log"]).runResult
        = (main (specCore sampleConfig 5) ["-verbose=false", "trace.log"]).runResult
      ∧ (main (specCore sampleConfig 5) ["-verbose", "trace.log"]).fatal
        = (main (specCore sampleConfig 5) ["-verbose=false", "trace.log"]).fatal
      ∧ (main (specCore sampleConfig 5) ["-verbose", "trace.log"]).exitCode
        = (main (specCore sampleConfig 5) ["-verbose=false", "trace.log"]).exitCode :=
  verbose_does_not_alter_outcome sampleConfig 5 ["-verbose", "trace.log"]
    ["-verbose=false", "trace.log"]
    (.left "-verbose" rfl (.right "-verbose=false" rfl (.same "trace.log" .nil)))

end MicroNetwork
